import Mathlib

/-
Verification of the MetaWave quantum-chemistry expression-tree engine.

The definitions below are a shallow embedding of the C++ sources:
  src/include/core/autogen_cursor/symbol.h, src/src/core/autogen_cursor/symbol.cpp
  src/include/core/autogen_cursor/expression.h, src/src/expression.cpp
  src/include/core/autogen_cursor/simplifier.h, src/src/simplifier.cpp

Modelling conventions:
  - C++ double values are modelled as rationals; all numeric values reached by
    the concrete scenarios below are 0 and 1, where double arithmetic is exact.
  - std::size_t arithmetic is modelled as natural numbers reduced modulo 2^64.
  - The implementation-defined std::hash instances for std::string, int and
    double are modelled as parameters of the hash functions, so every theorem
    about hashing holds for an arbitrary choice of those leaf hash functions.
  - The string-keyed property bags of Symbol and Expression are omitted: no
    implemented method other than their own accessors reads them, and no claim
    mentions them.
  - The expression variants embedded are exactly the ones implemented in
    src/src/expression.cpp: symbol leaves, binary operations, commutators and
    n-ary sums.  The tensor / operator / index-sum variants declared in the
    header have no implementation in the sources.
-/

namespace MetaWave

/-- The four symbol kinds of Symbol::Type (symbol.h). -/
inductive SymbolType
  | SCALAR
  | VARIABLE
  | CONSTANT
  | COMPLEX
deriving DecidableEq

/-- The integer value of a Symbol::Type enumerator, as produced by the
static_cast to int used for hashing. -/
def SymbolType.code : SymbolType → Int
  | .SCALAR => 0
  | .VARIABLE => 1
  | .CONSTANT => 2
  | .COMPLEX => 3

/-- The Symbol class hierarchy of symbol.h: the base Symbol (an arbitrary
kind), ScalarSymbol (kind SCALAR plus a numeric value) and ComplexSymbol
(kind COMPLEX plus real and imaginary parts). -/
inductive Symbol
  | base (name : String) (ty : SymbolType)
  | scalar (name : String) (value : ℚ)
  | cplx (name : String) (re im : ℚ)
deriving DecidableEq

/-- Accessor for Symbol::name(). -/
def Symbol.name : Symbol → String
  | .base n _ => n
  | .scalar n _ => n
  | .cplx n _ _ => n

/-- Accessor for Symbol::type(): a ScalarSymbol always carries kind SCALAR and
a ComplexSymbol kind COMPLEX (fixed by their constructors in symbol.cpp). -/
def Symbol.type : Symbol → SymbolType
  | .base _ t => t
  | .scalar _ _ => .SCALAR
  | .cplx _ _ _ => .COMPLEX

/-- Symbol::operator== (symbol.cpp): equality by name and kind only. -/
def Symbol.eqb (s t : Symbol) : Bool :=
  decide (s.name = t.name ∧ s.type = t.type)

/-- One past the largest std::size_t value: size_t arithmetic is modulo this. -/
def M64 : Nat := 2 ^ 64

/-- Symbol::hash (symbol.cpp): h1 ^ (h2 << 1) over size_t, where h1 hashes the
name and h2 hashes the int value of the kind.  The std::hash instances are
parameters. -/
def Symbol.hash (hStr : String → Nat) (hInt : Int → Nat) (s : Symbol) : Nat :=
  (hStr s.name % M64) ^^^ (((hInt s.type.code % M64) <<< 1) % M64)

/-- Models the rendering of a C++ double by the default ostream formatting,
exact on integer values; the only scalar values rendered by the scenarios in
this development are integers.  Non-integer rationals are rendered as
num/den, a placeholder no theorem below depends on. -/
def ratOstream (q : ℚ) : String :=
  if q.den = 1 then toString q.num else toString q.num ++ "/" ++ toString q.den

/-- Pads a digit string to six characters with leading zeros. -/
def padSixDigits (s : String) : String :=
  String.mk (List.replicate (6 - s.length) (Char.ofNat 48)) ++ s

/-- Models std::to_string(double) (used by ExpressionFactory::constant): fixed
notation with six digits after the decimal point.  Rounding of non-integer
values is approximated by rational rounding; no theorem below evaluates it on
a non-integer value. -/
def ratStdToString (q : ℚ) : String :=
  let n : Int := round (q * 1000000)
  (if n < 0 then "-" else "") ++
    toString (n.natAbs / 1000000) ++ "." ++ padSixDigits (toString (n.natAbs % 1000000))

/-- Symbol::to_string, ScalarSymbol::to_string and ComplexSymbol::to_string
(symbol.cpp). -/
def Symbol.render : Symbol → String
  | .base n t =>
      n ++ (if t = .COMPLEX then "ℂ" else if t = .CONSTANT then "ᶜ" else "")
  | .scalar n v => n ++ "=" ++ ratOstream v
  | .cplx n re im =>
      n ++ "=" ++ ratOstream re ++ (if 0 ≤ im then "+" else "") ++ ratOstream im ++ "i"

/-- Symbol::clone (symbol.cpp): each subclass reconstructs itself. -/
def Symbol.clone : Symbol → Symbol
  | .base n t => .base n t
  | .scalar n v => .scalar n v
  | .cplx n re im => .cplx n re im

/-- Expression::Type (expression.h), in declaration order; the integer codes
used for hashing are the positions in this order. -/
inductive ExprType
  | SYMBOL
  | TENSOR
  | OPERATOR
  | OPERATOR_PRODUCT
  | ADD
  | SUBTRACT
  | MULTIPLY
  | DIVIDE
  | POWER
  | COMMUTATOR
  | ANTICOMMUTATOR
  | CONTRACT
  | SUM
  | DERIVATIVE
  | INTEGRAL
  | FUNCTION_CALL
deriving DecidableEq

/-- The integer value of an Expression::Type enumerator. -/
def ExprType.code : ExprType → Int
  | .SYMBOL => 0
  | .TENSOR => 1
  | .OPERATOR => 2
  | .OPERATOR_PRODUCT => 3
  | .ADD => 4
  | .SUBTRACT => 5
  | .MULTIPLY => 6
  | .DIVIDE => 7
  | .POWER => 8
  | .COMMUTATOR => 9
  | .ANTICOMMUTATOR => 10
  | .CONTRACT => 11
  | .SUM => 12
  | .DERIVATIVE => 13
  | .INTEGRAL => 14
  | .FUNCTION_CALL => 15

/-- The five tags a BinaryOpExpression is constructed with by the factory
functions of expression.cpp. -/
inductive BinTag
  | ADD
  | SUBTRACT
  | MULTIPLY
  | DIVIDE
  | POWER
deriving DecidableEq

/-- The Expression::Type stored by a BinaryOpExpression for each tag. -/
def BinTag.type : BinTag → ExprType
  | .ADD => .ADD
  | .SUBTRACT => .SUBTRACT
  | .MULTIPLY => .MULTIPLY
  | .DIVIDE => .DIVIDE
  | .POWER => .POWER

/-- BinaryOpExpression::set_operator_symbol (expression.cpp). -/
def BinTag.opSymbol : BinTag → String
  | .ADD => "+"
  | .SUBTRACT => "-"
  | .MULTIPLY => "*"
  | .DIVIDE => "/"
  | .POWER => "^"

/-- The expression tree: the variants implemented in expression.cpp.
A SumExpression stores its children and its coefficient vector side by side,
exactly as the two C++ vectors do; SumExpression::coefficient(i) defaults to
1.0 when the coefficient vector is shorter than the child vector. -/
inductive Expr
  | sym (s : Symbol)
  | binop (t : BinTag) (l r : Expr)
  | comm (a b : Expr)
  | sum (terms : List Expr) (coeffs : List ℚ)

/-- Expression::type() for each implemented variant. -/
def Expr.type : Expr → ExprType
  | .sym _ => .SYMBOL
  | .binop t _ _ => t.type
  | .comm _ _ => .COMMUTATOR
  | .sum _ _ => .SUM

/-- The children_ vector of an expression node. -/
def Expr.children : Expr → List Expr
  | .sym _ => []
  | .binop _ l r => [l, r]
  | .comm a b => [a, b]
  | .sum ts _ => ts

/-- Expression::num_children(). -/
def Expr.num_children (e : Expr) : Nat := e.children.length

/-- The coefficients_ vector of a SumExpression; empty for every other
variant. -/
def Expr.coeffs : Expr → List ℚ
  | .sum _ ks => ks
  | _ => []

/-- SumExpression::coefficient(i): the stored coefficient, defaulting to 1.0
past the end of the coefficient vector. -/
def coefficientAt (ks : List ℚ) (i : Nat) : ℚ := ks.getD i 1

/-- Expression::set_child (expression.cpp): replaces child i when i is in
range and silently does nothing otherwise. -/
def Expr.set_child : Expr → Nat → Expr → Expr
  | .sym s, _, _ => .sym s
  | .binop t _ r, 0, c => .binop t c r
  | .binop t l _, 1, c => .binop t l c
  | .binop t l r, _, _ => .binop t l r
  | .comm _ b, 0, c => .comm c b
  | .comm a _, 1, c => .comm a c
  | .comm a b, _, _ => .comm a b
  | .sum ts ks, i, c => if i < ts.length then .sum (ts.set i c) ks else .sum ts ks

/-- Synchronises a coefficient vector with a child vector the way
SumExpression::clone does: the clone stores coefficient(i) for each child i,
so the cloned coefficient vector always has the same length as the child
vector. -/
def padCoeffs : List Expr → List ℚ → List ℚ
  | [], _ => []
  | _ :: ts, ks => ks.headD 1 :: padCoeffs ts ks.tail

mutual

/-- The clone() overrides of expression.cpp: deep copies, with
SumExpression::clone rebuilding its term list via add_term(child.clone(),
coefficient(i)). -/
def Expr.clone : Expr → Expr
  | .sym s => .sym s.clone
  | .binop t l r => .binop t l.clone r.clone
  | .comm a b => .comm a.clone b.clone
  | .sum ts ks => .sum (Expr.cloneList ts) (padCoeffs ts ks)

/-- Clones each element of a child vector. -/
def Expr.cloneList : List Expr → List Expr
  | [] => []
  | c :: cs => c.clone :: Expr.cloneList cs

end

mutual

/-- The equals() overrides of expression.cpp: structural recursive equality
over tag and children, with symbol leaves comparing their symbols by
Symbol::operator== and sums also comparing coefficient(i) pairwise. -/
def Expr.equals : Expr → Expr → Bool
  | .sym s, .sym t => Symbol.eqb s t
  | .sym _, _ => false
  | .binop t l r, .binop u l2 r2 => decide (t = u) && l.equals l2 && r.equals r2
  | .binop _ _ _, _ => false
  | .comm a b, .comm c d => a.equals c && b.equals d
  | .comm _ _, _ => false
  | .sum ts ks, .sum us ls => decide (ts.length = us.length) && Expr.equalsSum ts us ks ls
  | .sum _ _, _ => false

/-- The per-index loop of SumExpression::equals: child i must be equals and
coefficient(i) must coincide. -/
def Expr.equalsSum : List Expr → List Expr → List ℚ → List ℚ → Bool
  | [], _, _, _ => true
  | _ :: _, [], _, _ => true
  | c :: cs, d :: ds, ks, ls =>
      c.equals d && decide (ks.headD 1 = ls.headD 1) && Expr.equalsSum cs ds ks.tail ls.tail

end

/-- The golden-ratio mixing step shared by every hash() override: the seed is
xor-combined with the sum of the incoming hash, the constant 0x9e3779b9, the
seed shifted left by 6 and the seed shifted right by 2, over size_t. -/
def hashCombine (seed h : Nat) : Nat :=
  seed ^^^ ((h + 0x9e3779b9 + (seed <<< 6) % M64 + seed >>> 2) % M64)

mutual

/-- The hash() overrides of expression.cpp.  A symbol leaf returns its
hash of its symbol; the other variants start from the hash of the int value of
their tag and mix in each child hash (and, for sums, each coefficient hash)
in order. -/
def Expr.hash (hStr : String → Nat) (hInt : Int → Nat) (hFloat : ℚ → Nat) : Expr → Nat
  | .sym s => Symbol.hash hStr hInt s
  | .binop t l r =>
      hashCombine (hashCombine (hInt t.type.code % M64) (l.hash hStr hInt hFloat))
        (r.hash hStr hInt hFloat)
  | .comm a b =>
      hashCombine (hashCombine (hInt ExprType.COMMUTATOR.code % M64) (a.hash hStr hInt hFloat))
        (b.hash hStr hInt hFloat)
  | .sum ts ks => Expr.hashSum hStr hInt hFloat ts ks (hInt ExprType.SUM.code % M64)

/-- The per-index loop of SumExpression::hash: mixes in hash of child i and
then the hash of coefficient(i). -/
def Expr.hashSum (hStr : String → Nat) (hInt : Int → Nat) (hFloat : ℚ → Nat) :
    List Expr → List ℚ → Nat → Nat
  | [], _, seed => seed
  | c :: cs, ks, seed =>
      Expr.hashSum hStr hInt hFloat cs ks.tail
        (hashCombine (hashCombine seed (c.hash hStr hInt hFloat)) (hFloat (ks.headD 1) % M64))

end

mutual

/-- The to_string() overrides of expression.cpp: a symbol leaf renders its
symbol; a binary operation renders infix, parenthesising a child exactly when
the tag of the child is ADD or SUBTRACT; a commutator renders as a bracket pair;
an empty sum renders as 0 and a non-empty sum joins its terms with +,
prefixing coefficient* when coefficient(i) is not 1.0. -/
def Expr.render : Expr → String
  | .sym s => s.render
  | .binop t l r =>
      (if l.type = .ADD ∨ l.type = .SUBTRACT then "(" ++ l.render ++ ")" else l.render) ++
        " " ++ t.opSymbol ++ " " ++
        (if r.type = .ADD ∨ r.type = .SUBTRACT then "(" ++ r.render ++ ")" else r.render)
  | .comm a b => "[" ++ a.render ++ ", " ++ b.render ++ "]"
  | .sum [] _ => "0"
  | .sum (c :: cs) ks => Expr.renderSum (c :: cs) ks true

/-- The per-index loop of SumExpression::to_string. -/
def Expr.renderSum : List Expr → List ℚ → Bool → String
  | [], _, _ => ""
  | c :: cs, ks, first =>
      (if first then "" else " + ") ++
        (if ks.headD 1 ≠ 1 then ratOstream (ks.headD 1) ++ "*" else "") ++
        c.render ++ Expr.renderSum cs ks.tail false

end

namespace ExpressionFactory

/-- ExpressionFactory::symbol (expression.cpp). -/
def symbol (s : Symbol) : Expr := .sym s.clone

/-- ExpressionFactory::add. -/
def add (l r : Expr) : Expr := .binop .ADD l r

/-- ExpressionFactory::subtract. -/
def subtract (l r : Expr) : Expr := .binop .SUBTRACT l r

/-- ExpressionFactory::multiply. -/
def multiply (l r : Expr) : Expr := .binop .MULTIPLY l r

/-- ExpressionFactory::commutator. -/
def commutator (a b : Expr) : Expr := .comm a b

/-- ExpressionFactory::zero: a symbol leaf over ScalarSymbol("0", 0.0). -/
def zero : Expr := .sym (.scalar "0" 0)

/-- ExpressionFactory::one: a symbol leaf over ScalarSymbol("1", 1.0). -/
def one : Expr := .sym (.scalar "1" 1)

/-- ExpressionFactory::constant: a symbol leaf over
ScalarSymbol(std::to_string(value), value). -/
def constant (v : ℚ) : Expr := .sym (.scalar (ratStdToString v) v)

end ExpressionFactory

/-- The operand test shared by the identity and zero rules of simplifier.cpp:
the expression is a symbol leaf, its symbol has kind SCALAR, the symbol is a
ScalarSymbol, and the stored value compares equal to 0.0 - with no tolerance
and irrespective of the name of the symbol. -/
def isZeroScalarLeaf : Expr → Bool
  | .sym (.scalar _ v) => decide (v = 0)
  | _ => false

/-- The operand test of AlgebraicRules::identity_multiplication: like
isZeroScalarLeaf with the value compared against 1.0. -/
def isOneScalarLeaf : Expr → Bool
  | .sym (.scalar _ v) => decide (v = 1)
  | _ => false

/-- AlgebraicRules::identity_addition (simplifier.cpp): on a binary ADD it
returns a clone of the right operand when the left operand is a zero scalar
leaf, else a clone of the left operand when the right operand is one, else no
replacement; on any other node no replacement. -/
def identity_addition : Expr → Option Expr
  | .binop .ADD l r =>
      if isZeroScalarLeaf l then some r.clone
      else if isZeroScalarLeaf r then some l.clone
      else none
  | _ => none

/-- AlgebraicRules::identity_multiplication: the same shape over a binary
MULTIPLY with the one test. -/
def identity_multiplication : Expr → Option Expr
  | .binop .MULTIPLY l r =>
      if isOneScalarLeaf l then some r.clone
      else if isOneScalarLeaf r then some l.clone
      else none
  | _ => none

/-- AlgebraicRules::zero_multiplication: a binary MULTIPLY with a zero scalar
leaf on either side collapses to ExpressionFactory::zero(). -/
def zero_multiplication : Expr → Option Expr
  | .binop .MULTIPLY l r =>
      if isZeroScalarLeaf l || isZeroScalarLeaf r then some ExpressionFactory.zero
      else none
  | _ => none

/-- The get_scalar_value lambda of AlgebraicRules::combine_constants: the
value of a scalar symbol leaf, if the expression is one. -/
def getScalarValue : Expr → Option ℚ
  | .sym (.scalar _ v) => some v
  | _ => none

/-- AlgebraicRules::combine_constants: folds a binary ADD (resp. MULTIPLY) of
two scalar leaves into ExpressionFactory::constant of their sum (resp.
product). -/
def combine_constants : Expr → Option Expr
  | .binop .ADD l r =>
      match getScalarValue l, getScalarValue r with
      | some a, some b => some (ExpressionFactory.constant (a + b))
      | _, _ => none
  | .binop .MULTIPLY l r =>
      match getScalarValue l, getScalarValue r with
      | some a, some b => some (ExpressionFactory.constant (a * b))
      | _, _ => none
  | _ => none

/-- DistributiveRules::distribute_multiplication (simplifier.cpp).  The C++
branches on whether each operand of a binary MULTIPLY is an ADD or SUM node:
two binary ADD operands expand to the four-term SumExpression ac, ad, bc, bd
built by add_term with the default coefficient 1.0; a single binary ADD
operand expands to the binary ADD of the two products; every branch in which
an operand is an n-ary SUM node falls through to returning no replacement. -/
def distribute_multiplication : Expr → Option Expr
  | .binop .MULTIPLY (.binop .ADD a b) (.binop .ADD c d) =>
      some (.sum
        [ExpressionFactory.multiply a.clone c.clone,
         ExpressionFactory.multiply a.clone d.clone,
         ExpressionFactory.multiply b.clone c.clone,
         ExpressionFactory.multiply b.clone d.clone]
        [1, 1, 1, 1])
  | .binop .MULTIPLY (.binop .ADD a b) r =>
      if r.type = .SUM then none
      else
        some (ExpressionFactory.add
          (ExpressionFactory.multiply a.clone r.clone)
          (ExpressionFactory.multiply b.clone r.clone))
  | .binop .MULTIPLY l (.binop .ADD b c) =>
      if l.type = .SUM then none
      else
        some (ExpressionFactory.add
          (ExpressionFactory.multiply l.clone b.clone)
          (ExpressionFactory.multiply l.clone c.clone))
  | _ => none

/-- DistributiveRules::factor_common_terms: a binary ADD of two binary
MULTIPLY nodes sharing the right (else the left) factor, detected by
Expression::equals, refolds to the product with the shared factor. -/
def factor_common_terms : Expr → Option Expr
  | .binop .ADD (.binop .MULTIPLY a x) (.binop .MULTIPLY b y) =>
      if x.equals y then
        some (ExpressionFactory.multiply (ExpressionFactory.add a.clone b.clone) x.clone)
      else if a.equals b then
        some (ExpressionFactory.multiply a.clone (ExpressionFactory.add x.clone y.clone))
      else none
  | _ => none

/-- DistributiveRules::distribute_over_subtraction: a binary MULTIPLY whose
right (checked first), else left, operand is a binary SUBTRACT expands to the
difference of the two products. -/
def distribute_over_subtraction : Expr → Option Expr
  | .binop .MULTIPLY l r =>
      match r with
      | .binop .SUBTRACT b c =>
          some (ExpressionFactory.subtract
            (ExpressionFactory.multiply l.clone b.clone)
            (ExpressionFactory.multiply l.clone c.clone))
      | _ =>
          match l with
          | .binop .SUBTRACT a b =>
              some (ExpressionFactory.subtract
                (ExpressionFactory.multiply a.clone r.clone)
                (ExpressionFactory.multiply b.clone r.clone))
          | _ => none
  | _ => none

/-- CommutatorRules::antisymmetry: a validation-only placeholder that returns
no replacement on every input. -/
def antisymmetry : Expr → Option Expr
  | _ => none

/-- CommutatorRules::zero_commutator: a commutator whose two children are
structurally equals collapses to ExpressionFactory::zero(). -/
def zero_commutator : Expr → Option Expr
  | .comm a b => if a.equals b then some ExpressionFactory.zero else none
  | _ => none

/-- CommutatorRules::expand_commutator: any commutator expands to the
difference of the two products of clones of its children. -/
def expand_commutator : Expr → Option Expr
  | .comm a b =>
      some (ExpressionFactory.subtract
        (ExpressionFactory.multiply a.clone b.clone)
        (ExpressionFactory.multiply b.clone a.clone))
  | _ => none

/-- Simplifier::Rule: a pure function from an expression to an optional
replacement. -/
def Rule : Type := Expr → Option Expr

/-- Simplifier::RuleType (simplifier.h). -/
inductive RuleType
  | ALGEBRAIC
  | DISTRIBUTIVE
  | ASSOCIATIVE
  | COMMUTATIVE
  | TENSOR
  | OPERATOR
  | COMMUTATOR
  | INDEX
  | SYMMETRY
deriving DecidableEq

/-- The rules_ map after the Simplifier constructor has run
initialize_default_rules (simplifier.cpp): DISTRIBUTIVE, ALGEBRAIC and
COMMUTATOR hold their registered rule lists in registration order; looking up
any other category fails, as rules_.find does on a missing key. -/
def defaultRules : RuleType → Option (List Rule)
  | .DISTRIBUTIVE =>
      some [distribute_multiplication, factor_common_terms, distribute_over_subtraction]
  | .ALGEBRAIC =>
      some [identity_addition, identity_multiplication, zero_multiplication, combine_constants]
  | .COMMUTATOR => some [antisymmetry, zero_commutator, expand_commutator]
  | _ => none

/-- Simplifier::apply_rules: tries each rule of the list in order on the whole
expression and returns the first non-empty replacement; returns nothing when
every rule declines. -/
def apply_rules (e : Expr) : List Rule → Option Expr
  | [] => none
  | rule :: rest =>
      match rule e with
      | some result => some result
      | none => apply_rules e rest

/-- The rule_order vector of Simplifier::simplify. -/
def rule_order : List RuleType :=
  [.ALGEBRAIC, .DISTRIBUTIVE, .COMMUTATOR, .TENSOR, .OPERATOR, .SYMMETRY]

/-- The body of one pass of Simplifier::simplify: iterates the remaining rule
categories, looking each up in the rule map, applying its rules first-match
wins, and adopting a replacement - and recording a change - exactly when the
rendered string of the replacement differs from the rendered string of the
string. -/
def run_categories : List RuleType → Expr → Bool → Expr × Bool
  | [], result, changed => (result, changed)
  | rt :: rest, result, changed =>
      match defaultRules rt with
      | none => run_categories rest result changed
      | some rules =>
          match apply_rules result rules with
          | none => run_categories rest result changed
          | some newExpr =>
              if newExpr.render ≠ result.render then run_categories rest newExpr true
              else run_categories rest result changed

/-- The while loop of Simplifier::simplify, with the remaining iteration
budget (max_iterations minus the iterations already executed) as fuel: while
the budget is positive and the previous pass changed the tree, run another
pass over the category order. -/
def simplify_loop : Nat → Expr → Expr
  | 0, result => result
  | fuel + 1, result =>
      match run_categories rule_order result false with
      | (r, changed) => if changed then simplify_loop fuel r else r

/-- Simplifier::simplify for a default-constructed Simplifier: clone the
input, then run passes until a pass reports no change or the cap of 10
iterations is reached. -/
def simplify (e : Expr) : Expr := simplify_loop 10 e.clone

/-- One pass of the rewriting loop as a self-map of expressions. -/
def passFun (e : Expr) : Expr := (run_categories rule_order e false).1

/-- Modelled from the spec text, for comparison with apply_rules: rules are
applied in list order and the first rule returning a non-empty replacement
wins, short-circuiting the rest of the list. -/
def claimFirstMatch (rules : List Rule) (e : Expr) : Option Expr :=
  rules.findSome? fun rule => rule e

/-- Modelled from the spec text, for comparison with the pass structure of
simplify: the rule categories are consulted in the fixed order ALGEBRAIC,
DISTRIBUTIVE, COMMUTATOR, TENSOR, OPERATOR, SYMMETRY; a category with no
registered rule list is skipped; the first-match replacement of a category is
adopted, and the pass marked as changed, exactly when its
rendered string differs from the rendered string of the tree the category was
applied to. -/
def claimPass (e : Expr) : Expr × Bool :=
  [RuleType.ALGEBRAIC, RuleType.DISTRIBUTIVE, RuleType.COMMUTATOR,
      RuleType.TENSOR, RuleType.OPERATOR, RuleType.SYMMETRY].foldl
    (fun st rt =>
      match defaultRules rt with
      | none => st
      | some rules =>
          match claimFirstMatch rules st.1 with
          | none => st
          | some n => if n.render ≠ st.1.render then (n, true) else st)
    (e, false)

/-- Modelled from the spec text: repeat claim-described passes while the
previous pass changed the tree, within the iteration budget. -/
def claimLoop : Nat → Expr → Expr
  | 0, result => result
  | fuel + 1, result =>
      match claimPass result with
      | (r, changed) => if changed then claimLoop fuel r else r

/-- Modelled from the spec text: clone the input and run claim-described
passes under the cap of 10 iterations. -/
def claimSimplify (e : Expr) : Expr := claimLoop 10 e.clone

/-- Modelled from the amended reading of the parenthesization rule: a
rendered child of a binary operation is parenthesized exactly when the
own tag of the child is ADD or SUBTRACT, regardless of the parent combinator. -/
def parenWrap (c : Expr) : String :=
  if c.type = .ADD ∨ c.type = .SUBTRACT then "(" ++ c.render ++ ")" else c.render

/-- The variable symbol leaf x of the end-to-end scenario. -/
def symX : Expr := .sym (.base "x" .VARIABLE)

/-- The variable symbol leaf y of the end-to-end scenario. -/
def symY : Expr := .sym (.base "y" .VARIABLE)

/-- A variable symbol leaf a. -/
def symA : Expr := .sym (.base "a" .VARIABLE)

/-- A variable symbol leaf b. -/
def symB : Expr := .sym (.base "b" .VARIABLE)

/-- A variable symbol leaf c. -/
def symC : Expr := .sym (.base "c" .VARIABLE)

/-- A variable symbol leaf d. -/
def symD : Expr := .sym (.base "d" .VARIABLE)

/-- The scalar leaf named 0 with value 0.0 used by the scenarios; it
coincides with ExpressionFactory::zero(). -/
def leafZero : Expr := .sym (.scalar "0" 0)

/-- The scalar leaf named 1 with value 1.0 used by the scenarios; it
coincides with ExpressionFactory::one(). -/
def leafOne : Expr := .sym (.scalar "1" 1)

/-- The end-to-end scenario expression ((x+0) * (y + 1*0)) + 0, built with
the factory functions exactly as in demonstrate_full_simplification of
examples/main.cpp. -/
def exprC1 : Expr :=
  ExpressionFactory.add
    (ExpressionFactory.multiply
      (ExpressionFactory.add symX leafZero)
      (ExpressionFactory.add symY (ExpressionFactory.multiply leafOne leafZero)))
    leafZero

/-- Structural induction over the expression tree, with a membership
hypothesis for the children of a sum node. -/
theorem Expr.inductionOn (P : Expr → Prop)
    (hsym : ∀ s, P (.sym s))
    (hbin : ∀ t l r, P l → P r → P (.binop t l r))
    (hcomm : ∀ a b, P a → P b → P (.comm a b))
    (hsum : ∀ ts ks, (∀ c ∈ ts, P c) → P (.sum ts ks)) : ∀ e, P e := by
  have key : ∀ (n : Nat) (e : Expr), sizeOf e ≤ n → P e := by
    intro n
    induction n with
    | zero =>
        intro e h
        cases e <;> simp at h
    | succ n ih =>
        intro e h
        cases e with
        | sym s => exact hsym s
        | binop t l r =>
            have hl : sizeOf l ≤ n := by simp at h; omega
            have hr : sizeOf r ≤ n := by simp at h; omega
            exact hbin t l r (ih l hl) (ih r hr)
        | comm a b =>
            have ha : sizeOf a ≤ n := by simp at h; omega
            have hb : sizeOf b ≤ n := by simp at h; omega
            exact hcomm a b (ih a ha) (ih b hb)
        | sum ts ks =>
            refine hsum ts ks fun c hc => ih c ?_
            have hlt := List.sizeOf_lt_of_mem hc
            simp at h
            omega
  exact fun e => key (sizeOf e) e le_rfl

/-- The per-index sum comparison is reflexive once each child comparison
is. -/
theorem Expr.equalsSum_refl :
    ∀ (ts : List Expr) (ks : List ℚ), (∀ c ∈ ts, c.equals c = true) →
      Expr.equalsSum ts ts ks ks = true := by
  intro ts
  induction ts with
  | nil => intro ks _; rfl
  | cons c cs ih =>
      intro ks h
      simp only [Expr.equalsSum, Bool.and_eq_true, decide_eq_true_eq]
      exact ⟨⟨h c (by simp), trivial⟩, ih ks.tail fun d hd => h d (by simp [hd])⟩

/-- Expression::equals is reflexive. -/
theorem Expr.equals_refl : ∀ e : Expr, e.equals e = true := by
  apply Expr.inductionOn
  · intro s
    simp [Expr.equals, Symbol.eqb]
  · intro t l r hl hr
    simp [Expr.equals, hl, hr]
  · intro a b ha hb
    simp [Expr.equals, ha, hb]
  · intro ts ks h
    simp [Expr.equals, Expr.equalsSum_refl ts ks h]

/-- Unfolding of one iteration of the simplify while loop, stated through
pair projections. -/
theorem simplify_loop_succ (fuel : Nat) (e : Expr) :
    simplify_loop (fuel + 1) e =
      if (run_categories rule_order e false).2 then
        simplify_loop fuel (run_categories rule_order e false).1
      else (run_categories rule_order e false).1 := rfl

/-- Unfolding of one iteration of the claim-described loop. -/
theorem claimLoop_succ (fuel : Nat) (e : Expr) :
    claimLoop (fuel + 1) e =
      if (claimPass e).2 then claimLoop fuel (claimPass e).1 else (claimPass e).1 := rfl

/-- The fuelled while loop is an iterate of the pass function, executing at
most as many passes as it has fuel. -/
theorem simplify_loop_iterate :
    ∀ (fuel : Nat) (e : Expr), ∃ k, k ≤ fuel ∧ simplify_loop fuel e = passFun^[k] e := by
  intro fuel
  induction fuel with
  | zero => exact fun e => ⟨0, le_rfl, rfl⟩
  | succ n ih =>
      intro e
      have hr : passFun e = (run_categories rule_order e false).1 := rfl
      cases hc : (run_categories rule_order e false).2 with
      | false =>
          refine ⟨1, by omega, ?_⟩
          rw [simplify_loop_succ, hc, if_neg (by simp), Function.iterate_one, hr]
      | true =>
          obtain ⟨k, hk, heq⟩ := ih (run_categories rule_order e false).1
          refine ⟨k + 1, by omega, ?_⟩
          rw [simplify_loop_succ, hc, if_pos rfl, heq, Function.iterate_succ_apply, hr]

/-- Simplifier::apply_rules applies the first applicable rule in list
order. -/
theorem apply_rules_eq_claimFirstMatch :
    ∀ (e : Expr) (rules : List Rule), apply_rules e rules = claimFirstMatch rules e := by
  intro e rules
  induction rules with
  | nil => rfl
  | cons rule rest ih =>
      simp only [apply_rules, claimFirstMatch, List.findSome?_cons]
      cases rule e <;> simp_all [claimFirstMatch]

/-- The category loop of one pass coincides with the claim-described left
fold over the category order. -/
theorem run_categories_eq_foldl :
    ∀ (cats : List RuleType) (e : Expr) (c : Bool),
      run_categories cats e c =
        cats.foldl
          (fun st rt =>
            match defaultRules rt with
            | none => st
            | some rules =>
                match claimFirstMatch rules st.1 with
                | none => st
                | some n => if n.render ≠ st.1.render then (n, true) else st)
          (e, c) := by
  intro cats
  induction cats with
  | nil => intro e c; rfl
  | cons rt rest ih =>
      intro e c
      simp only [run_categories, List.foldl_cons]
      cases hdr : defaultRules rt with
      | none => simp only [hdr]; exact ih e c
      | some rules =>
          simp only [hdr]
          rw [apply_rules_eq_claimFirstMatch]
          cases hfm : claimFirstMatch rules e with
          | none => simp only [hfm]; exact ih e c
          | some n =>
              simp only [hfm]
              by_cases hne : n.render ≠ e.render
              · rw [if_pos hne, if_pos hne]
                exact ih n true
              · rw [if_neg hne, if_neg hne]
                exact ih e c

/-- The fuelled while loop coincides with the claim-described loop. -/
theorem simplify_loop_eq_claimLoop :
    ∀ (fuel : Nat) (e : Expr), simplify_loop fuel e = claimLoop fuel e := by
  intro fuel
  induction fuel with
  | zero => intro e; rfl
  | succ n ih =>
      intro e
      have hp : run_categories rule_order e false = claimPass e := by
        rw [run_categories_eq_foldl]; rfl
      rw [simplify_loop_succ, claimLoop_succ, hp]
      cases (claimPass e).2 <;> simp [ih]

/-- The rendered string of the zero expression. -/
theorem render_zero : ExpressionFactory.zero.render = "0=0" := rfl

/-- A commutator never renders as the zero expression does: the lengths
differ. -/
theorem render_zero_ne_comm (a b : Expr) :
    ExpressionFactory.zero.render ≠ (Expr.comm a b).render := by
  intro h
  have hlen := congrArg String.length h
  have hz : (ExpressionFactory.zero.render).length = 3 := rfl
  have hob : ("[" : String).length = 1 := rfl
  have hcs : (", " : String).length = 2 := rfl
  have hcb : ("]" : String).length = 1 := rfl
  rw [hz] at hlen
  simp only [Expr.render, String.length_append, hob, hcs, hcb] at hlen
  omega

/-- Equal symbols (by Symbol::operator==) have equal Symbol::hash values, for
every choice of leaf hash functions. -/
theorem Symbol.eqb_hash (hStr : String → Nat) (hInt : Int → Nat) (s t : Symbol)
    (h : Symbol.eqb s t = true) : Symbol.hash hStr hInt s = Symbol.hash hStr hInt t := by
  simp only [Symbol.eqb, decide_eq_true_eq] at h
  simp [Symbol.hash, h.1, h.2]

/-- The sum hashing loop is determined by the equals relation on children and
the padded coefficients. -/
theorem Expr.hashSum_congr (hStr : String → Nat) (hInt : Int → Nat) (hFloat : ℚ → Nat) :
    ∀ (ts us : List Expr) (ks ls : List ℚ) (seed : Nat),
      ts.length = us.length →
      Expr.equalsSum ts us ks ls = true →
      (∀ c ∈ ts, ∀ d, c.equals d = true → c.hash hStr hInt hFloat = d.hash hStr hInt hFloat) →
      Expr.hashSum hStr hInt hFloat ts ks seed = Expr.hashSum hStr hInt hFloat us ls seed := by
  intro ts
  induction ts with
  | nil =>
      intro us ks ls seed hlen _ _
      cases us with
      | nil => rfl
      | cons d ds => simp at hlen
  | cons c cs ih =>
      intro us ks ls seed hlen heq hIH
      cases us with
      | nil => simp at hlen
      | cons d ds =>
          simp only [Expr.equalsSum, Bool.and_eq_true, decide_eq_true_eq] at heq
          obtain ⟨⟨hcd, hk⟩, hrest⟩ := heq
          simp only [Expr.hashSum]
          rw [hIH c (by simp) d hcd, hk]
          exact ih ds ks.tail ls.tail _ (by simpa using hlen) hrest
            fun x hx => hIH x (by simp [hx])

/-- C8: for every two expressions a and b over the implemented node variants
(symbol leaves, binary operations, commutators, sums) and every choice of the
leaf hash functions, equals(a, b) = true implies hash(a) = hash(b). -/
theorem equals_implies_hash_eq (hStr : String → Nat) (hInt : Int → Nat) (hFloat : ℚ → Nat) :
    ∀ a b : Expr, a.equals b = true → a.hash hStr hInt hFloat = b.hash hStr hInt hFloat := by
  intro a
  induction a using Expr.inductionOn with
  | hsym s =>
      intro b hb
      cases b with
      | sym t =>
          simp only [Expr.equals] at hb
          simp only [Expr.hash]
          exact Symbol.eqb_hash hStr hInt s t hb
      | binop u l2 r2 => simp [Expr.equals] at hb
      | comm x y => simp [Expr.equals] at hb
      | sum us ls => simp [Expr.equals] at hb
  | hbin t l r ihl ihr =>
      intro b hb
      cases b with
      | sym s => simp [Expr.equals] at hb
      | binop u l2 r2 =>
          simp only [Expr.equals, Bool.and_eq_true, decide_eq_true_eq] at hb
          obtain ⟨⟨htu, hl⟩, hr⟩ := hb
          subst htu
          simp only [Expr.hash]
          rw [ihl l2 hl, ihr r2 hr]
      | comm x y => simp [Expr.equals] at hb
      | sum us ls => simp [Expr.equals] at hb
  | hcomm x y ihx ihy =>
      intro b hb
      cases b with
      | sym s => simp [Expr.equals] at hb
      | binop u l2 r2 => simp [Expr.equals] at hb
      | comm x2 y2 =>
          simp only [Expr.equals, Bool.and_eq_true] at hb
          obtain ⟨hx, hy⟩ := hb
          simp only [Expr.hash]
          rw [ihx x2 hx, ihy y2 hy]
      | sum us ls => simp [Expr.equals] at hb
  | hsum ts ks ihm =>
      intro b hb
      cases b with
      | sym s => simp [Expr.equals] at hb
      | binop u l2 r2 => simp [Expr.equals] at hb
      | comm x y => simp [Expr.equals] at hb
      | sum us ls =>
          simp only [Expr.equals, Bool.and_eq_true, decide_eq_true_eq] at hb
          obtain ⟨hlen, hrest⟩ := hb
          simp only [Expr.hash]
          exact Expr.hashSum_congr hStr hInt hFloat ts us ks ls _ hlen hrest
            fun c hc d hd => ihm c hc d hd

/-- C8 witness: a concrete pair of equal sum expressions with equal hashes,
with concrete leaf hash functions. -/
theorem equals_implies_hash_eq_witness :
    Expr.equals (.sum [symX, symY] [2, 1]) (.sum [symX, symY] [2, 1]) = true ∧
      Expr.hash String.length Int.natAbs (fun q => q.num.natAbs)
          (.sum [symX, symY] [2, 1]) =
        Expr.hash String.length Int.natAbs (fun q => q.num.natAbs)
          (.sum [symX, symY] [2, 1]) :=
  ⟨by decide, equals_implies_hash_eq String.length Int.natAbs (fun q => q.num.natAbs)
    (.sum [symX, symY] [2, 1]) (.sum [symX, symY] [2, 1]) (by decide)⟩

/-- C10: symbol equality and hashing ignore the numeric value of a ScalarSymbol;
two scalar leaves with the same name are equals and hash identically for
every choice of leaf hash functions, whatever their stored values. -/
theorem scalar_leaf_equality_ignores_value (hStr : String → Nat) (hInt : Int → Nat)
    (hFloat : ℚ → Nat) :
    ∀ (n : String) (u v : ℚ),
      Expr.equals (.sym (.scalar n u)) (.sym (.scalar n v)) = true ∧
        Expr.hash hStr hInt hFloat (.sym (.scalar n u)) =
          Expr.hash hStr hInt hFloat (.sym (.scalar n v)) := by
  intro n u v
  constructor
  · simp [Expr.equals, Symbol.eqb, Symbol.name, Symbol.type]
  · simp [Expr.hash, Symbol.hash, Symbol.name, Symbol.type]

/-- C9: Expression::set_child is a silent no-op at any out-of-range index,
and at an in-range index replaces exactly that child, preserving the original
tag and coefficient vector. -/
theorem set_child_spec :
    ∀ (e : Expr) (i : Nat) (c : Expr),
      (e.num_children ≤ i → e.set_child i c = e) ∧
      (i < e.num_children →
        (e.set_child i c).children = e.children.set i c ∧
        (e.set_child i c).type = e.type ∧
        (e.set_child i c).coeffs = e.coeffs) := by
  intro e i c
  cases e with
  | sym s =>
      refine ⟨fun _ => rfl, fun h => ?_⟩
      simp [Expr.num_children, Expr.children] at h
  | binop t l r =>
      rcases i with _ | _ | n
      · exact ⟨fun h => by simp [Expr.num_children, Expr.children] at h,
          fun _ => ⟨rfl, rfl, rfl⟩⟩
      · exact ⟨fun h => by simp [Expr.num_children, Expr.children] at h,
          fun _ => ⟨rfl, rfl, rfl⟩⟩
      · refine ⟨fun _ => rfl, fun h => ?_⟩
        simp [Expr.num_children, Expr.children] at h
        omega
  | comm a b =>
      rcases i with _ | _ | n
      · exact ⟨fun h => by simp [Expr.num_children, Expr.children] at h,
          fun _ => ⟨rfl, rfl, rfl⟩⟩
      · exact ⟨fun h => by simp [Expr.num_children, Expr.children] at h,
          fun _ => ⟨rfl, rfl, rfl⟩⟩
      · refine ⟨fun _ => rfl, fun h => ?_⟩
        simp [Expr.num_children, Expr.children] at h
        omega
  | sum ts ks =>
      constructor
      · intro h
        simp only [Expr.num_children, Expr.children] at h
        simp only [Expr.set_child]
        rw [if_neg (by omega)]
      · intro h
        simp only [Expr.num_children, Expr.children] at h
        simp only [Expr.set_child]
        rw [if_pos h]
        exact ⟨rfl, rfl, rfl⟩

/-- C9 witness: setting child 5 of a two-child node is a no-op, and setting
child 0 replaces exactly the first child. -/
theorem set_child_spec_witness :
    Expr.set_child (.binop .ADD symX symY) 5 leafOne = .binop .ADD symX symY ∧
      (Expr.set_child (.binop .ADD symX symY) 0 leafOne).children = [leafOne, symY] := by
  constructor
  · exact (set_child_spec (.binop .ADD symX symY) 5 leafOne).1 (by decide)
  · have h := ((set_child_spec (.binop .ADD symX symY) 0 leafOne).2 (by decide)).1
    simpa [Expr.children] using h

/-- C4: the identity and zero algebraic rules rewrite x+0 and 0+x to (a clone
of) x, x*1 and 1*x to x, and x*0 and 0*x to the zero expression, returning no
replacement when no operand matches; the zero and one operand tests hold
exactly of symbol leaves over a ScalarSymbol whose value equals 0.0
respectively 1.0 - with exact comparison and irrespective of the name. -/
theorem identity_zero_rules_spec :
    ∀ l r : Expr,
      (identity_addition (ExpressionFactory.add l r) =
          if isZeroScalarLeaf l then some r.clone
          else if isZeroScalarLeaf r then some l.clone
          else none) ∧
      (identity_multiplication (ExpressionFactory.multiply l r) =
          if isOneScalarLeaf l then some r.clone
          else if isOneScalarLeaf r then some l.clone
          else none) ∧
      (zero_multiplication (ExpressionFactory.multiply l r) =
          if isZeroScalarLeaf l || isZeroScalarLeaf r then some ExpressionFactory.zero
          else none) ∧
      (∀ e : Expr, isZeroScalarLeaf e = true ↔ ∃ n v, e = .sym (.scalar n v) ∧ v = 0) ∧
      (∀ e : Expr, isOneScalarLeaf e = true ↔ ∃ n v, e = .sym (.scalar n v) ∧ v = 1) := by
  intro l r
  refine ⟨rfl, rfl, rfl, ?_, ?_⟩
  · intro e
    cases e with
    | sym s => cases s <;> simp [isZeroScalarLeaf]
    | binop t a b => simp [isZeroScalarLeaf]
    | comm a b => simp [isZeroScalarLeaf]
    | sum ts ks => simp [isZeroScalarLeaf]
  · intro e
    cases e with
    | sym s => cases s <;> simp [isOneScalarLeaf]
    | binop t a b => simp [isOneScalarLeaf]
    | comm a b => simp [isOneScalarLeaf]
    | sum ts ks => simp [isOneScalarLeaf]

/-- C1 counterexample: simplifying ((x+0) * (y + 1*0)) + 0 does not produce
the same rendered string as simplifying x*y; the rules apply only at the
root, so after one identity step and one distributive expansion the zero and
one noise survives inside the resulting sum. -/
theorem simplify_endtoend_counterexample :
    Expr.render (simplify exprC1) ≠
      Expr.render (simplify (ExpressionFactory.multiply symX symY)) := by
  decide

/-- C1 amended: simplifying ((x+0) * (y + 1*0)) + 0 drops the outer zero and
expands the product into the four-term sum rendered as
x * y + x * 1=1 * 0=0 + 0=0 * y + 0=0 * 1=1 * 0=0, while simplifying x*y
directly renders as x * y; the two rendered strings differ because the
simplifier never recurses into subtrees. -/
theorem simplify_endtoend_amended :
    Expr.render (simplify exprC1) =
        "x * y + x * 1=1 * 0=0 + 0=0 * y + 0=0 * 1=1 * 0=0" ∧
      Expr.render (simplify (ExpressionFactory.multiply symX symY)) = "x * y" := by
  exact ⟨by decide, by decide⟩

/-- C2: every pass of Simplifier::simplify consults the rule categories in
the fixed order ALGEBRAIC, DISTRIBUTIVE, COMMUTATOR, TENSOR, OPERATOR,
SYMMETRY, applies the rules of each category in list order with the first
non-empty replacement short-circuiting the rest, and counts a change exactly
when the rendered string of the adopted replacement differs from the
rendered string of the current tree: simplify coincides with the loop built from that
claim-described pass. -/
theorem simplify_follows_claimed_pass_discipline :
    ∀ e : Expr, simplify e = claimSimplify e :=
  fun e => simplify_loop_eq_claimLoop 10 e.clone

/-- C3: Simplifier::simplify always returns after at most 10 iterations of
its rewriting loop; the result is an iterate of the single-pass function
applied at most 10 times to the cloned input. -/
theorem simplify_within_iteration_cap :
    ∀ e : Expr, ∃ k, k ≤ 10 ∧ simplify e = passFun^[k] e.clone :=
  fun e => simplify_loop_iterate 10 e.clone

/-- C5: distribute_multiplication expands (a+b)*(c+d) over binary ADD nodes
to the four-term Sum ac, ad, bc, bd in that order with coefficients 1.0,
expands the one-sided shapes (a+b)*r and l*(b+c) to the corresponding binary
sums of two products, and returns no replacement whenever an operand is an
n-ary SUM node. -/
theorem distribute_multiplication_spec :
    ∀ (a b c d l r : Expr) (ts : List Expr) (ks : List ℚ),
      (distribute_multiplication
          (ExpressionFactory.multiply (ExpressionFactory.add a b)
            (ExpressionFactory.add c d)) =
        some (.sum
          [ExpressionFactory.multiply a.clone c.clone,
           ExpressionFactory.multiply a.clone d.clone,
           ExpressionFactory.multiply b.clone c.clone,
           ExpressionFactory.multiply b.clone d.clone]
          [1, 1, 1, 1])) ∧
      (r.type ≠ .ADD → r.type ≠ .SUM →
        distribute_multiplication
            (ExpressionFactory.multiply (ExpressionFactory.add a b) r) =
          some (ExpressionFactory.add
            (ExpressionFactory.multiply a.clone r.clone)
            (ExpressionFactory.multiply b.clone r.clone))) ∧
      (l.type ≠ .ADD → l.type ≠ .SUM →
        distribute_multiplication
            (ExpressionFactory.multiply l (ExpressionFactory.add b c)) =
          some (ExpressionFactory.add
            (ExpressionFactory.multiply l.clone b.clone)
            (ExpressionFactory.multiply l.clone c.clone))) ∧
      (distribute_multiplication (ExpressionFactory.multiply (.sum ts ks) r) = none) ∧
      (distribute_multiplication (ExpressionFactory.multiply l (.sum ts ks)) = none) := by
  intro a b c d l r ts ks
  refine ⟨rfl, ?_, ?_, ?_, ?_⟩
  · intro hA hS
    cases r with
    | sym s => rfl
    | binop u l2 r2 =>
        cases u with
        | ADD => exact absurd rfl hA
        | SUBTRACT => rfl
        | MULTIPLY => rfl
        | DIVIDE => rfl
        | POWER => rfl
    | comm x y => rfl
    | sum us ls => exact absurd rfl hS
  · intro hA hS
    cases l with
    | sym s => rfl
    | binop u l2 r2 =>
        cases u with
        | ADD => exact absurd rfl hA
        | SUBTRACT => rfl
        | MULTIPLY => rfl
        | DIVIDE => rfl
        | POWER => rfl
    | comm x y => rfl
    | sum us ls => exact absurd rfl hS
  · cases r with
    | sym s => rfl
    | binop u l2 r2 => cases u <;> rfl
    | comm x y => rfl
    | sum us ls => rfl
  · cases l with
    | sym s => rfl
    | binop u l2 r2 => cases u <;> rfl
    | comm x y => rfl
    | sum us ls => rfl

/-- C5 witness: a concrete one-sided expansion (a+b)*c with c a plain symbol
leaf, obtained from the general statement by discharging the shape
hypotheses. -/
theorem distribute_multiplication_spec_witness :
    distribute_multiplication
        (ExpressionFactory.multiply (ExpressionFactory.add symA symB) symC) =
      some (ExpressionFactory.add
        (ExpressionFactory.multiply symA.clone symC.clone)
        (ExpressionFactory.multiply symB.clone symC.clone)) :=
  (distribute_multiplication_spec symA symB symC symD symC symC [] []).2.1
    (by decide) (by decide)

/-- C6: for every expression E, compound trees included, simplify applied to
the commutator [E, E] returns the zero expression, the match being detected
by structural equality of the two children. -/
theorem simplify_self_commutator_eq_zero :
    ∀ E : Expr, simplify (ExpressionFactory.commutator E E) = ExpressionFactory.zero := by
  intro E
  have hrefl : (Expr.clone E).equals (Expr.clone E) = true := Expr.equals_refl _
  have hzc : zero_commutator (Expr.comm E.clone E.clone) = some ExpressionFactory.zero := by
    simp [zero_commutator, hrefl]
  have h3 : apply_rules (Expr.comm E.clone E.clone)
      [antisymmetry, zero_commutator, expand_commutator] = some ExpressionFactory.zero := by
    simp [apply_rules, antisymmetry, hzc]
  have hstr : ExpressionFactory.zero.render ≠ (Expr.comm E.clone E.clone).render :=
    render_zero_ne_comm E.clone E.clone
  have h1 : apply_rules (Expr.comm E.clone E.clone)
      [identity_addition, identity_multiplication, zero_multiplication,
        combine_constants] = none := rfl
  have h2 : apply_rules (Expr.comm E.clone E.clone)
      [distribute_multiplication, factor_common_terms,
        distribute_over_subtraction] = none := rfl
  have hpass : run_categories rule_order (Expr.comm E.clone E.clone) false =
      (ExpressionFactory.zero, true) := by
    simp only [rule_order, run_categories, defaultRules, h1, h2, h3]
    rw [if_pos hstr]
  show simplify_loop 10 (Expr.clone (Expr.comm E E)) = ExpressionFactory.zero
  have hclone : Expr.clone (Expr.comm E E) = Expr.comm E.clone E.clone := rfl
  rw [hclone, show (10 : Nat) = 9 + 1 from rfl, simplify_loop_succ, hpass]
  rfl

/-- C7 counterexample: an ADD child embedded in an ADD parent is rendered
with parentheses: (a+b)+c renders as (x + y) + 1=1 over the leaves x, y and
the scalar one leaf, not as the unparenthesized x + y + 1=1. -/
theorem binop_render_always_parenthesizes_add_child :
    Expr.render (ExpressionFactory.add (ExpressionFactory.add symX symY) leafOne) =
        "(x + y) + 1=1" ∧
      Expr.render (ExpressionFactory.add (ExpressionFactory.add symX symY) leafOne) ≠
        "x + y + 1=1" := by
  exact ⟨by decide, by decide⟩

/-- C7 amended: in BinaryOpExpression::to_string a child is parenthesized iff
the tag of the child is ADD or SUBTRACT, regardless of the parent
precedence; the rendering of every binary node is the parenthesization-
wrapped left child, the operator symbol, and the parenthesization-wrapped
right child. -/
theorem binop_render_paren_rule :
    ∀ (t : BinTag) (l r : Expr),
      (Expr.binop t l r).render = parenWrap l ++ " " ++ t.opSymbol ++ " " ++ parenWrap r := by
  intro t l r
  rfl

end MetaWave
